import Mathlib

/-!
Shallow embedding of the intraday CE/PE option-chain dashboard
(`src/streamlit_app.py`) and verification of its specification claims.

Numeric columns are modelled as lists of rationals (raw columns) or lists of
optional rationals (derived columns, where `none` plays the role of a missing
value / NaN as produced by pandas `diff`, `pct_change`, `shift` and rolling
windows).  Pearson correlations are real-valued (they involve a square root);
a correlation that pandas reports as NaN is modelled as `none`.
-/

namespace Dashboard

/-- Scaled variance numerator of a list: `n * Σ x² - (Σ x)²`.  This is
`n² * (n-1)/n`-times the sample variance; it is zero exactly when the sample
variance is zero (degenerate series), and positive otherwise. -/
def varNum (l : List ℚ) : ℚ :=
  (l.length : ℚ) * (l.map fun x => x * x).sum - l.sum * l.sum

/-- Scaled covariance numerator over a list of pairs: `n * Σ xy - Σx * Σy`. -/
def covNum (ps : List (ℚ × ℚ)) : ℚ :=
  (ps.length : ℚ) * (ps.map fun p => p.1 * p.2).sum -
    (ps.map Prod.fst).sum * (ps.map Prod.snd).sum

/-- Pearson correlation of a list of (x, y) samples, as computed by
pandas `Series.corr`: undefined (NaN, here `none`) when either marginal has
zero variance (this subsumes the cases of fewer than two samples), and
otherwise `covNum / sqrt (varNum x * varNum y)`, which coincides with the
usual `cov/(σx σy)` after cancelling the common `n(n-1)` scaling. -/
noncomputable def pearson (ps : List (ℚ × ℚ)) : Option ℝ :=
  if varNum (ps.map Prod.fst) = 0 ∨ varNum (ps.map Prod.snd) = 0 then none
  else some ((covNum ps : ℝ) /
    Real.sqrt ((varNum (ps.map Prod.fst) : ℝ) * (varNum (ps.map Prod.snd) : ℝ)))

/-- Pairwise-complete observations: pandas correlation functions drop every
row where either operand is missing. -/
def validPairs (xs ys : List (Option ℚ)) : List (ℚ × ℚ) :=
  (xs.zip ys).filterMap fun p =>
    match p with
    | (some a, some b) => some (a, b)
    | _ => none

/-- Model of `pandas.Series.corr` on two aligned option-valued columns. -/
noncomputable def corrS (xs ys : List (Option ℚ)) : Option ℝ :=
  pearson (validPairs xs ys)

/-- Model of `Series.diff()`: first row missing, then consecutive differences. -/
def diffCol (l : List ℚ) : List (Option ℚ) :=
  match l with
  | [] => []
  | _ :: t => none :: List.zipWith (fun a b => some (b - a)) l t

/-- Model of `Series.pct_change() * 100` as used at line 36 of the source. -/
def pctCol (l : List ℚ) : List (Option ℚ) :=
  match l with
  | [] => []
  | _ :: t => none :: List.zipWith (fun a b => some ((b / a - 1) * 100)) l t

/-- Model of `Series.shift(k)`: `k` leading missing values, tail truncated so
that the length is preserved. -/
def shiftCol (k : Nat) (l : List (Option ℚ)) : List (Option ℚ) :=
  List.replicate k none ++ l.take (l.length - k)

/-- Option side, the `s` of the source's `for s in ["CE","PE"]` loops. -/
inductive Side
  | CE
  | PE
deriving DecidableEq

def sideName : Side → String
  | .CE => "CE"
  | .PE => "PE"

/-- The merged snapshot table (`data` in the source), one list per raw column;
all eight columns are index-aligned. -/
structure ChainData where
  CE_lastPrice : List ℚ
  CE_openInterest : List ℚ
  CE_totalTradedVolume : List ℚ
  CE_impliedVolatility : List ℚ
  PE_lastPrice : List ℚ
  PE_openInterest : List ℚ
  PE_totalTradedVolume : List ℚ
  PE_impliedVolatility : List ℚ

def lastPriceCol (d : ChainData) : Side → List ℚ
  | .CE => d.CE_lastPrice
  | .PE => d.PE_lastPrice

def openInterestCol (d : ChainData) : Side → List ℚ
  | .CE => d.CE_openInterest
  | .PE => d.PE_openInterest

def volumeCol (d : ChainData) : Side → List ℚ
  | .CE => d.CE_totalTradedVolume
  | .PE => d.PE_totalTradedVolume

/-- Column `{s}_price_change` (source line 35). -/
def priceChange (d : ChainData) (s : Side) : List (Option ℚ) :=
  diffCol (lastPriceCol d s)

/-- Column `{s}_pct_return` (source line 36). -/
def pctReturn (d : ChainData) (s : Side) : List (Option ℚ) :=
  pctCol (lastPriceCol d s)

/-- Column `{s}_vol_change` (source line 37). -/
def volChange (d : ChainData) (s : Side) : List (Option ℚ) :=
  diffCol (volumeCol d s)

/-- Column `{s}_oi_change` (source line 38). -/
def oiChange (d : ChainData) (s : Side) : List (Option ℚ) :=
  diffCol (openInterestCol d s)

/-- The derived columns appended per side by the feature-derivation loop
(source lines 34-38), in source order, with their pandas column names. -/
def derivedCols (d : ChainData) (s : Side) : List (String × List (Option ℚ)) :=
  [(sideName s ++ "_price_change", priceChange d s),
   (sideName s ++ "_pct_return", pctReturn d s),
   (sideName s ++ "_vol_change", volChange d s),
   (sideName s ++ "_oi_change", oiChange d s)]

/-- Price-OI correlation `corr_results[s]` (source line 62): full-series
correlation of the price-change and OI-change columns. -/
noncomputable def corr_results (d : ChainData) (s : Side) : Option ℝ :=
  corrS (priceChange d s) (oiChange d s)

/-- A real option is strictly positive (pandas `x > 0` is `False` on NaN). -/
def optPosR (o : Option ℝ) : Prop :=
  ∃ r, o = some r ∧ 0 < r

open Classical in
/-- Build-up note printed for a side (source line 63): `"long build‑up"` when
`corr_results[s] > 0`, otherwise `"short build‑up"` (a NaN comparison is
false, so NaN also yields the short note). -/
noncomputable def buildupNote (d : ChainData) (s : Side) : String :=
  if optPosR (corr_results d s) then "long build‑up" else "short build‑up"

/-- Same-side sentiment `ce_sent` (source line 117): full-series correlation
of raw CE price against raw CE open interest. -/
noncomputable def ce_sent (d : ChainData) : Option ℝ :=
  corrS (d.CE_lastPrice.map some) (d.CE_openInterest.map some)

/-- Same-side sentiment `pe_sent` (source line 118). -/
noncomputable def pe_sent (d : ChainData) : Option ℝ :=
  corrS (d.PE_lastPrice.map some) (d.PE_openInterest.map some)

/-- The `OI_imb` column (source line 124). -/
def OI_imb (d : ChainData) : List ℚ :=
  List.zipWith (fun c p => (c - p) / (c + p)) d.CE_openInterest d.PE_openInterest

/-- Comparison `o > 0` on an optional rational, false on missing (NaN). -/
def gtzQ : Option ℚ → Bool
  | some x => decide (0 < x)
  | none => false

/-- Last entry of a derived column, i.e. `data.iloc[-1][col]`. -/
def latestOpt (l : List (Option ℚ)) : Option ℚ :=
  l.getLast?.join

/-- Condition `ce_up` (source line 133). -/
def ceUp (d : ChainData) : Bool :=
  gtzQ (latestOpt (priceChange d .CE)) && gtzQ (latestOpt (oiChange d .CE))

/-- Condition `pe_up` (source line 134). -/
def peUp (d : ChainData) : Bool :=
  gtzQ (latestOpt (priceChange d .PE)) && gtzQ (latestOpt (oiChange d .PE))

/-- Sentiment classification `mood` (source lines 135-140). -/
def mood (d : ChainData) : String :=
  if ceUp d && !peUp d then "Bullish"
  else if peUp d && !ceUp d then "Bearish"
  else "Neutral"

/-- Strength score (source lines 143-144): mean of the absolute values of the
four full-series correlations; missing (NaN) if any of them is missing, since
NaN propagates through the sum. -/
noncomputable def strength (d : ChainData) : Option ℝ :=
  match corr_results d .CE, corr_results d .PE, ce_sent d, pe_sent d with
  | some a, some b, some c, some e => some ((|a| + |b| + |c| + |e|) / 4)
  | _, _, _, _ => none

/-- Model of `x.rolling(W).corr(y)` (source line 70): at index `i` the window
is rows `[i-W+1, i]`; with the default `min_periods = W` the result is missing
unless all `W` rows of the window carry a value in both operands, and is the
Pearson correlation of the windowed pairs otherwise (hence missing again on a
zero-variance window). -/
noncomputable def rollingCorr (xs ys : List (Option ℚ)) (W : Nat) : List (Option ℝ) :=
  (List.range xs.length).map fun i =>
    let v := validPairs ((xs.take (i + 1)).drop (i + 1 - W))
                        ((ys.take (i + 1)).drop (i + 1 - W))
    if v.length < W then none else pearson v

/-- The rolling price-OI correlation series `roll` of `plot_rollcorr`
(source line 70). -/
noncomputable def rollSeries (d : ChainData) (s : Side) (W : Nat) : List (Option ℝ) :=
  rollingCorr (priceChange d s) (oiChange d s) W

/-- Model of `np.sign` on a possibly missing value: `np.sign(NaN)` is NaN. -/
noncomputable def nsign (o : Option ℝ) : Option ℝ :=
  o.map Real.sign

/-- IEEE-style inequality on possibly missing values: `a != b` is true
whenever either side is NaN (in particular `NaN != NaN` is true), and is the
usual inequality on two present values. -/
def neqNaN (a b : Option ℝ) : Prop :=
  ¬ ∃ s, a = some s ∧ b = some s

/-- Value of `roll.shift(1)` at index `i`. -/
def prevRoll (l : List (Option ℝ)) (i : Nat) : Option ℝ :=
  if i = 0 then none else l.getD (i - 1) none

/-- Index `i` is reported as a crossover marker (source line 77):
`np.where(np.sign(roll) != np.sign(roll.shift(1)))`. -/
def isCross (l : List (Option ℝ)) (i : Nat) : Prop :=
  i < l.length ∧ neqNaN (nsign (l.getD i none)) (nsign (prevRoll l i))

/-- Source line 97: `maxlag = 5`. -/
def maxlag : Nat := 5

/-- Lag-test correlation at lag `k` (source line 101): correlation between
the price-change column and the raw open-interest column shifted by `k`. -/
noncomputable def lagCorr (d : ChainData) (s : Side) (k : Nat) : Option ℝ :=
  corrS (priceChange d s) (shiftCol k ((openInterestCol d s).map some))

/-- Rows of `lagdf` (source lines 99-103): one `(lag, corr)` row per lag
`1, ..., maxlag`. -/
noncomputable def lagRows (d : ChainData) (s : Side) : List (Nat × Option ℝ) :=
  (List.range maxlag).map fun j => (j + 1, lagCorr d s (j + 1))

/-- The non-missing `(lag, value)` rows of `lagdf`, in order. -/
noncomputable def lagValid (d : ChainData) (s : Side) : List (Nat × ℝ) :=
  (lagRows d s).filterMap fun p => p.2.map fun v => (p.1, v)

/-- Model of `lagdf.loc[lagdf["Corr"].idxmax()]` (source line 104): pandas
`idxmax` skips missing values and returns the first row attaining the maximum
of the remaining ones; `none` when every correlation is missing (pandas would
fail there). -/
noncomputable def bestLag (d : ChainData) (s : Side) : Option Nat :=
  ((lagValid d s).argmax Prod.snd).map Prod.fst

/-- Last non-missing entry of a series, scanning from the end. -/
def latestNonNull (l : List (Option ℝ)) : Option ℝ :=
  (l.reverse.find? fun o => o.isSome).join

/-- The strength formula asserted by the specification (claim C1), written
from the spec text for comparison against the source's `strength`:
0.4 times the latest rolling price-OI correlation of the CE side, plus 0.3
times the latest rolling price-volume correlation, plus 0.3 times the OI
imbalance at the latest row; an entirely-null rolling series contributes 0. -/
noncomputable def strengthClaimC1 (d : ChainData) (W : Nat) : ℝ :=
  0.4 * ((latestNonNull (rollingCorr (priceChange d .CE) (oiChange d .CE) W)).getD 0) +
    0.3 * ((latestNonNull (rollingCorr (priceChange d .CE) (volChange d .CE) W)).getD 0) +
    0.3 * (((OI_imb d).getLast?.getD 0 : ℚ) : ℝ)

open Classical in
/-- The regime rule asserted by the specification (claim C5), written from
the spec text for comparison against the source's labels: Bullish when the
most recent non-null rolling correlation between the side's price and its own
open interest is positive, Bearish otherwise. -/
noncomputable def regimeClaimC5 (d : ChainData) (W : Nat) : String :=
  if optPosR (latestNonNull
      (rollingCorr (d.CE_lastPrice.map some) (d.CE_openInterest.map some) W))
  then "Bullish" else "Bearish"

/-- A strictly convex ramp used as raw column data in the concrete tables:
its first differences 1, 2, 3, 4 are non-constant and identical across
columns, making every correlation of the pipeline exactly 1. -/
def LA : List ℚ := [1, 2, 4, 7, 11]

/-- Concrete table A: every raw column is the ramp `LA`. -/
def tableA : ChainData := ⟨LA, LA, LA, LA, LA, LA, LA, LA⟩

/-- Concrete table B (three rows), used for the lag analysis: only lag 1
leaves at least two pairwise-complete observations. -/
def tableB : ChainData :=
  ⟨[1, 2, 4], [5, 6, 8], [1, 2, 4], [1, 2, 4], [1, 2, 4], [5, 6, 8], [1, 2, 4], [1, 2, 4]⟩

/-- CE price column of table C: rises throughout. -/
def LCp : List ℚ := [1, 2, 8, 9]

/-- CE open-interest column of table C: rises, then falls on the last row, so
the full-series price/OI-change correlation is positive while the last
rolling window's price/OI correlation is negative. -/
def LCo : List ℚ := [1, 2, 8, 7]

/-- Concrete table C, separating the full-series correlation sign from the
latest rolling-correlation sign. -/
def tableC : ChainData := ⟨LCp, LCo, LCp, LCp, LCp, LCp, LCp, LCp⟩

/-- Concrete one-row table D with CE open interest 1200 and PE open
interest 800. -/
def tableD : ChainData := ⟨[1], [1200], [1], [1], [1], [800], [1], [1]⟩

end Dashboard

namespace Dashboard

lemma sum_map_affine_sq (a b : ℚ) (l : List ℚ) :
    (l.map fun x => (a * x + b) ^ 2).sum =
      a ^ 2 * (l.map fun x => x * x).sum + 2 * a * b * l.sum + b ^ 2 * l.length := by
  induction l with
  | nil => simp
  | cons x t ih => simp [ih]; ring

lemma length_mul_varNum (l : List ℚ) :
    (l.length : ℚ) * varNum l = (l.map fun x => ((l.length : ℚ) * x - l.sum) ^ 2).sum := by
  have h := sum_map_affine_sq (l.length : ℚ) (-l.sum) l
  simp only [varNum]
  rw [show (fun x => ((l.length : ℚ) * x - l.sum) ^ 2) =
    (fun x => ((l.length : ℚ) * x + (-l.sum)) ^ 2) by funext x; ring, h]
  ring

lemma varNum_nonneg (l : List ℚ) : 0 ≤ varNum l := by
  rcases l with _ | ⟨x, t⟩
  · simp [varNum]
  · have hn : (0:ℚ) < ((x :: t).length : ℚ) := by
      have : ((x :: t).length : ℚ) = (t.length : ℚ) + 1 := by push_cast [List.length_cons]; ring
      rw [this]; positivity
    have h2 : 0 ≤ ((x :: t).length : ℚ) * varNum (x :: t) := by
      rw [length_mul_varNum]
      apply List.sum_nonneg
      intro y hy
      simp only [List.mem_map] at hy
      obtain ⟨z, _, rfl⟩ := hy
      positivity
    nlinarith [h2, hn]

lemma sum_sq_fst_nonneg (ps : List (ℚ × ℚ)) : 0 ≤ (ps.map fun p => p.1 * p.1).sum := by
  apply List.sum_nonneg; intro y hy
  simp only [List.mem_map] at hy
  obtain ⟨z, _, rfl⟩ := hy
  exact mul_self_nonneg _

lemma sum_sq_snd_nonneg (ps : List (ℚ × ℚ)) : 0 ≤ (ps.map fun p => p.2 * p.2).sum := by
  apply List.sum_nonneg; intro y hy
  simp only [List.mem_map] at hy
  obtain ⟨z, _, rfl⟩ := hy
  exact mul_self_nonneg _

lemma list_cauchy (ps : List (ℚ × ℚ)) :
    ((ps.map fun p => p.1 * p.2).sum) ^ 2 ≤
      (ps.map fun p => p.1 * p.1).sum * (ps.map fun p => p.2 * p.2).sum := by
  induction ps with
  | nil => simp
  | cons q t ih =>
      obtain ⟨a, b⟩ := q
      simp only [List.map_cons, List.sum_cons]
      have hX := sum_sq_fst_nonneg t
      have hY := sum_sq_snd_nonneg t
      set P : ℚ := (t.map fun p => p.1 * p.2).sum with hP
      set X : ℚ := (t.map fun p => p.1 * p.1).sum with hXd
      set Y : ℚ := (t.map fun p => p.2 * p.2).sum with hYd
      rcases eq_or_lt_of_le hX with hX0 | hXpos
      · have hPz : P = 0 := by nlinarith [ih, sq_nonneg P]
        rw [hPz, ← hX0]
        nlinarith [mul_nonneg (mul_self_nonneg a) hY]
      · have h2 : 0 ≤ X * Y - P ^ 2 := by nlinarith [ih]
        have h3 : (0:ℚ) ≤ a ^ 2 + X := add_nonneg (sq_nonneg a) hX
        have h4 := mul_nonneg h3 h2
        have h5 := sq_nonneg (b * X - a * P)
        nlinarith [h4, h5, hXpos]

end Dashboard

namespace Dashboard

lemma sum_map_affine_mul (a1 b1 a2 b2 : ℚ) (ps : List (ℚ × ℚ)) :
    (ps.map fun p => (a1 * p.1 + b1) * (a2 * p.2 + b2)).sum =
      a1 * a2 * (ps.map fun p => p.1 * p.2).sum + a1 * b2 * (ps.map Prod.fst).sum +
        a2 * b1 * (ps.map Prod.snd).sum + b1 * b2 * ps.length := by
  induction ps with
  | nil => simp
  | cons q t ih => simp [ih]; ring

lemma covNum_sq_le (ps : List (ℚ × ℚ)) :
    covNum ps ^ 2 ≤ varNum (ps.map Prod.fst) * varNum (ps.map Prod.snd) := by
  rcases List.eq_nil_or_concat ps with hps | _
  · subst hps; simp [covNum, varNum]
  · have hpos : (0:ℚ) < (ps.length : ℚ) := by
      have : ps ≠ [] := by rintro rfl; simp_all
      have := List.length_pos.mpr this
      exact_mod_cast this
    have hA : ((ps.map fun p => ((ps.length:ℚ) * p.1 - (ps.map Prod.fst).sum,
          (ps.length:ℚ) * p.2 - (ps.map Prod.snd).sum)).map fun p => p.1 * p.2).sum =
        (ps.length:ℚ) * covNum ps := by
      rw [List.map_map]
      rw [show ((fun p : ℚ × ℚ => p.1 * p.2) ∘ fun p : ℚ × ℚ =>
          ((ps.length:ℚ) * p.1 - (ps.map Prod.fst).sum, (ps.length:ℚ) * p.2 - (ps.map Prod.snd).sum)) =
        fun p : ℚ × ℚ => ((ps.length:ℚ) * p.1 + -(ps.map Prod.fst).sum) *
          ((ps.length:ℚ) * p.2 + -(ps.map Prod.snd).sum) by funext p; simp; ring]
      rw [sum_map_affine_mul]
      simp only [covNum]
      ring
    have hB : ((ps.map fun p => ((ps.length:ℚ) * p.1 - (ps.map Prod.fst).sum,
          (ps.length:ℚ) * p.2 - (ps.map Prod.snd).sum)).map fun p => p.1 * p.1).sum =
        (ps.length:ℚ) * varNum (ps.map Prod.fst) := by
      rw [List.map_map]
      rw [show ((fun p : ℚ × ℚ => p.1 * p.1) ∘ fun p : ℚ × ℚ =>
          ((ps.length:ℚ) * p.1 - (ps.map Prod.fst).sum, (ps.length:ℚ) * p.2 - (ps.map Prod.snd).sum)) =
        (fun x => ((ps.length:ℚ) * x + -(ps.map Prod.fst).sum) ^ 2) ∘ Prod.fst by
          funext p; simp; ring]
      rw [← List.map_map, sum_map_affine_sq]
      simp only [varNum, List.length_map]
      ring
    have hC : ((ps.map fun p => ((ps.length:ℚ) * p.1 - (ps.map Prod.fst).sum,
          (ps.length:ℚ) * p.2 - (ps.map Prod.snd).sum)).map fun p => p.2 * p.2).sum =
        (ps.length:ℚ) * varNum (ps.map Prod.snd) := by
      rw [List.map_map]
      rw [show ((fun p : ℚ × ℚ => p.2 * p.2) ∘ fun p : ℚ × ℚ =>
          ((ps.length:ℚ) * p.1 - (ps.map Prod.fst).sum, (ps.length:ℚ) * p.2 - (ps.map Prod.snd).sum)) =
        (fun x => ((ps.length:ℚ) * x + -(ps.map Prod.snd).sum) ^ 2) ∘ Prod.snd by
          funext p; simp; ring]
      rw [← List.map_map, sum_map_affine_sq]
      simp only [varNum, List.length_map]
      ring
    have hcs := list_cauchy (ps.map fun p => ((ps.length:ℚ) * p.1 - (ps.map Prod.fst).sum,
      (ps.length:ℚ) * p.2 - (ps.map Prod.snd).sum))
    rw [hA, hB, hC] at hcs
    have hn2 : (0:ℚ) < (ps.length:ℚ) ^ 2 := by positivity
    have hsq : (ps.length:ℚ) ^ 2 * covNum ps ^ 2 ≤
        (ps.length:ℚ) ^ 2 * (varNum (ps.map Prod.fst) * varNum (ps.map Prod.snd)) := by
      nlinarith [hcs]
    exact le_of_mul_le_mul_left hsq hn2

end Dashboard

namespace Dashboard

lemma pearson_eq_none_iff (ps : List (ℚ × ℚ)) :
    pearson ps = none ↔ varNum (ps.map Prod.fst) = 0 ∨ varNum (ps.map Prod.snd) = 0 := by
  unfold pearson
  split <;> simp_all

lemma pearson_eq_some (ps : List (ℚ × ℚ)) (r : ℝ) (h : pearson ps = some r) :
    varNum (ps.map Prod.fst) ≠ 0 ∧ varNum (ps.map Prod.snd) ≠ 0 ∧
      r = (covNum ps : ℝ) /
        Real.sqrt ((varNum (ps.map Prod.fst) : ℝ) * (varNum (ps.map Prod.snd) : ℝ)) := by
  unfold pearson at h
  split at h
  · simp_all
  · rename_i hc
    push_neg at hc
    exact ⟨hc.1, hc.2, (Option.some_inj.mp h).symm⟩

lemma pearson_denom_pos (ps : List (ℚ × ℚ))
    (hx : varNum (ps.map Prod.fst) ≠ 0) (hy : varNum (ps.map Prod.snd) ≠ 0) :
    0 < Real.sqrt ((varNum (ps.map Prod.fst) : ℝ) * (varNum (ps.map Prod.snd) : ℝ)) := by
  have hx' : (0:ℚ) < varNum (ps.map Prod.fst) := lt_of_le_of_ne (varNum_nonneg _) (Ne.symm hx)
  have hy' : (0:ℚ) < varNum (ps.map Prod.snd) := lt_of_le_of_ne (varNum_nonneg _) (Ne.symm hy)
  apply Real.sqrt_pos.mpr
  have h1 : (0:ℝ) < (varNum (ps.map Prod.fst) : ℝ) := by exact_mod_cast hx'
  have h2 : (0:ℝ) < (varNum (ps.map Prod.snd) : ℝ) := by exact_mod_cast hy'
  positivity

lemma pearson_pos (ps : List (ℚ × ℚ))
    (hx : varNum (ps.map Prod.fst) ≠ 0) (hy : varNum (ps.map Prod.snd) ≠ 0)
    (hc : 0 < covNum ps) : ∃ r : ℝ, pearson ps = some r ∧ 0 < r := by
  refine ⟨(covNum ps : ℝ) /
      Real.sqrt ((varNum (ps.map Prod.fst) : ℝ) * (varNum (ps.map Prod.snd) : ℝ)), ?_, ?_⟩
  · unfold pearson
    rw [if_neg (by push_neg; exact ⟨hx, hy⟩)]
  · apply div_pos (by exact_mod_cast hc) (pearson_denom_pos ps hx hy)

lemma pearson_neg (ps : List (ℚ × ℚ))
    (hx : varNum (ps.map Prod.fst) ≠ 0) (hy : varNum (ps.map Prod.snd) ≠ 0)
    (hc : covNum ps < 0) : ∃ r : ℝ, pearson ps = some r ∧ r < 0 := by
  refine ⟨(covNum ps : ℝ) /
      Real.sqrt ((varNum (ps.map Prod.fst) : ℝ) * (varNum (ps.map Prod.snd) : ℝ)), ?_, ?_⟩
  · unfold pearson
    rw [if_neg (by push_neg; exact ⟨hx, hy⟩)]
  · apply div_neg_of_neg_of_pos (by exact_mod_cast hc) (pearson_denom_pos ps hx hy)

lemma pearson_abs_le_one (ps : List (ℚ × ℚ)) (r : ℝ) (h : pearson ps = some r) : |r| ≤ 1 := by
  obtain ⟨hx, hy, hr⟩ := pearson_eq_some ps r h
  have hd := pearson_denom_pos ps hx hy
  rw [hr, abs_div, abs_of_pos hd, div_le_one hd]
  have hcs : ((covNum ps : ℝ)) ^ 2 ≤
      (varNum (ps.map Prod.fst) : ℝ) * (varNum (ps.map Prod.snd) : ℝ) := by
    exact_mod_cast covNum_sq_le ps
  calc |(covNum ps : ℝ)| = Real.sqrt (((covNum ps : ℝ)) ^ 2) := (Real.sqrt_sq_eq_abs _).symm
    _ ≤ Real.sqrt ((varNum (ps.map Prod.fst) : ℝ) * (varNum (ps.map Prod.snd) : ℝ)) :=
        Real.sqrt_le_sqrt hcs

lemma map_fst_dup (l : List ℚ) : ((l.map fun x => (x, x)).map Prod.fst) = l := by
  rw [List.map_map]
  exact List.map_id l

lemma map_snd_dup (l : List ℚ) : ((l.map fun x => (x, x)).map Prod.snd) = l := by
  rw [List.map_map]
  exact List.map_id l

lemma map_mul_dup (l : List ℚ) :
    ((l.map fun x => (x, x)).map fun p => p.1 * p.2) = l.map fun x => x * x := by
  rw [List.map_map]
  rfl

lemma covNum_dup (l : List ℚ) : covNum (l.map fun x => (x, x)) = varNum l := by
  unfold covNum varNum
  rw [map_fst_dup, map_snd_dup, map_mul_dup, List.length_map]

lemma pearson_dup (l : List ℚ) (h : varNum l ≠ 0) :
    pearson (l.map fun x => (x, x)) = some 1 := by
  have hv : (0:ℚ) < varNum l := lt_of_le_of_ne (varNum_nonneg _) (Ne.symm h)
  unfold pearson
  rw [map_fst_dup, map_snd_dup, if_neg (by push_neg; exact ⟨h, h⟩), covNum_dup]
  congr 1
  have hv' : (0:ℝ) ≤ (varNum l : ℝ) := by exact_mod_cast hv.le
  rw [Real.sqrt_mul_self hv']
  apply div_self
  exact_mod_cast h

end Dashboard

namespace Dashboard

lemma validPairs_self (xs : List (Option ℚ)) :
    validPairs xs xs = xs.reduceOption.map fun x => (x, x) := by
  induction xs with
  | nil => rfl
  | cons o t ih =>
      cases o <;> simp [validPairs, List.reduceOption] at ih ⊢ <;> simpa using ih

lemma reduceOption_map_some (l : List ℚ) : (l.map some).reduceOption = l := by
  induction l with
  | nil => rfl
  | cons x t ih => simp [List.reduceOption, ih]

lemma corrS_self (xs : List (Option ℚ)) (h : varNum xs.reduceOption ≠ 0) :
    corrS xs xs = some 1 := by
  rw [corrS, validPairs_self, pearson_dup _ h]

lemma validPairs_map_some (as bs : List ℚ) :
    validPairs (as.map some) (bs.map some) = as.zip bs := by
  induction as generalizing bs with
  | nil => rfl
  | cons a t ih =>
      cases bs with
      | nil => rfl
      | cons b u => simp [validPairs, List.zip_cons_cons] at ih ⊢; exact ih u

end Dashboard

namespace Dashboard

lemma rollingCorr_length (xs ys : List (Option ℚ)) (W : Nat) :
    (rollingCorr xs ys W).length = xs.length := by
  simp [rollingCorr]

lemma rollingCorr_getElem (xs ys : List (Option ℚ)) (W i : Nat) (h : i < xs.length) :
    (rollingCorr xs ys W)[i]? = some
      (if (validPairs ((xs.take (i + 1)).drop (i + 1 - W))
            ((ys.take (i + 1)).drop (i + 1 - W))).length < W
       then none
       else pearson (validPairs ((xs.take (i + 1)).drop (i + 1 - W))
            ((ys.take (i + 1)).drop (i + 1 - W)))) := by
  unfold rollingCorr
  rw [List.getElem?_map, List.getElem?_range h]
  rfl

lemma slice_map_some (as : List ℚ) (k m : Nat) :
    ((as.map some).take k).drop m = ((as.take k).drop m).map some := by
  rw [← List.map_take, ← List.map_drop]

end Dashboard

namespace Dashboard

lemma rollingCorr_clean_getElem (as bs : List ℚ) (W i : Nat)
    (h : i < as.length) :
    (rollingCorr (as.map some) (bs.map some) W)[i]? = some
      (if (((as.take (i + 1)).drop (i + 1 - W)).zip ((bs.take (i + 1)).drop (i + 1 - W))).length < W
       then none
       else pearson (((as.take (i + 1)).drop (i + 1 - W)).zip ((bs.take (i + 1)).drop (i + 1 - W)))) := by
  rw [rollingCorr_getElem _ _ W i (by simpa using h), slice_map_some, slice_map_some,
    validPairs_map_some]

lemma slice_length (as : List ℚ) (i W : Nat) (h : i < as.length) :
    ((as.take (i + 1)).drop (i + 1 - W)).length = (i + 1) - (i + 1 - W) := by
  rw [List.length_drop, List.length_take]
  omega

end Dashboard

namespace Dashboard

/-- Claim C6: for every pair of numeric input series of equal length and every
window size `W > 0`, the rolling correlation series is aligned index-for-index
with the inputs (same length), every entry before position `W-1` is null, and
an entry at position `i ≥ W-1` is null exactly when one of the windowed
sub-series has zero variance - hence exactly `W-1` leading nulls when the
window-position entries are non-degenerate. -/
theorem rolling_corr_leading_nulls (as bs : List ℚ) (W : Nat) (hW : 0 < W)
    (hlen : as.length = bs.length) :
    (rollingCorr (as.map some) (bs.map some) W).length = as.length ∧
    (∀ i, i < W - 1 → i < as.length →
      (rollingCorr (as.map some) (bs.map some) W)[i]? = some none) ∧
    (∀ i, W - 1 ≤ i → i < as.length →
      ((rollingCorr (as.map some) (bs.map some) W)[i]? = some none ↔
        varNum ((as.take (i + 1)).drop (i + 1 - W)) = 0 ∨
        varNum ((bs.take (i + 1)).drop (i + 1 - W)) = 0)) := by
  refine ⟨by simp [rollingCorr_length], ?_, ?_⟩
  · intro i hi hin
    rw [rollingCorr_clean_getElem as bs W i hin]
    have hbs : i < bs.length := hlen ▸ hin
    have hcond : ((((as.take (i + 1)).drop (i + 1 - W)).zip
        ((bs.take (i + 1)).drop (i + 1 - W))).length) < W := by
      rw [List.length_zip, slice_length as i W hin, slice_length bs i W hbs]
      omega
    rw [if_pos hcond]
  · intro i hi hin
    rw [rollingCorr_clean_getElem as bs W i hin]
    have hbs : i < bs.length := hlen ▸ hin
    have hsa := slice_length as i W hin
    have hsb := slice_length bs i W hbs
    have hzl : ((((as.take (i + 1)).drop (i + 1 - W)).zip
        ((bs.take (i + 1)).drop (i + 1 - W))).length) = W := by
      rw [List.length_zip, hsa, hsb]
      omega
    rw [if_neg (by omega)]
    simp only [Option.some.injEq]
    rw [pearson_eq_none_iff,
      List.map_fst_zip _ _ (by rw [hsa, hsb]),
      List.map_snd_zip _ _ (by rw [hsa, hsb])]

/-- Witness for C6 at a concrete input: series of length 3, window 2. -/
theorem rolling_corr_leading_nulls_witness :
    (rollingCorr ([(1:ℚ), 2, 4].map some) ([(1:ℚ), 3, 9].map some) 2).length = 3 ∧
    (rollingCorr ([(1:ℚ), 2, 4].map some) ([(1:ℚ), 3, 9].map some) 2)[0]? = some none := by
  obtain ⟨h1, h2, _⟩ := rolling_corr_leading_nulls [1, 2, 4] [1, 3, 9] 2 (by norm_num) rfl
  exact ⟨by simpa using h1, h2 0 (by norm_num) (by norm_num)⟩

/-- Claim C7: the rolling correlation is a total function (an aligned entry
exists at every index), and at every window position where either windowed
sub-series has zero variance the entry is null rather than an error or a
propagated division by zero. -/
theorem rolling_corr_zero_variance_null (xs ys : List (Option ℚ)) (W i : Nat)
    (h : i < xs.length)
    (hvar : varNum ((validPairs ((xs.take (i + 1)).drop (i + 1 - W))
          ((ys.take (i + 1)).drop (i + 1 - W))).map Prod.fst) = 0 ∨
        varNum ((validPairs ((xs.take (i + 1)).drop (i + 1 - W))
          ((ys.take (i + 1)).drop (i + 1 - W))).map Prod.snd) = 0) :
    (rollingCorr xs ys W).length = xs.length ∧
    (rollingCorr xs ys W)[i]? = some none := by
  refine ⟨rollingCorr_length xs ys W, ?_⟩
  rw [rollingCorr_getElem xs ys W i h]
  by_cases hc : (validPairs ((xs.take (i + 1)).drop (i + 1 - W))
      ((ys.take (i + 1)).drop (i + 1 - W))).length < W
  · rw [if_pos hc]
  · rw [if_neg hc, (pearson_eq_none_iff _).mpr hvar]

/-- Witness for C7 at a concrete input: a constant-price window of size 2. -/
theorem rolling_corr_zero_variance_null_witness :
    (rollingCorr [some (1:ℚ), some 1] [some (2:ℚ), some 5] 2).length = 2 ∧
    (rollingCorr [some (1:ℚ), some 1] [some (2:ℚ), some 5] 2)[1]? = some none :=
  rolling_corr_zero_variance_null _ _ 2 1 (by norm_num)
    (by left; norm_num [show validPairs [some (1:ℚ), some 1] [some (2:ℚ), some 5]
          = [(1, 2), (1, 5)] from rfl, varNum])

end Dashboard

namespace Dashboard

lemma neqNaN_sign_iff (a b : Option ℝ) :
    neqNaN (nsign a) (nsign b) ↔
      ¬ ∃ x y, a = some x ∧ b = some y ∧ Real.sign x = Real.sign y := by
  unfold neqNaN nsign
  cases a <;> cases b <;> simp
  exact ⟨fun h h2 => h h2.symm, fun h h2 => h h2.symm⟩

/-- Claim C8 (amended): a row of the rolling-correlation series is reported as
a crossover marker exactly when it is in range and it is NOT the case that
both its value and the previous row's value (missing before row 0) are
present with equal sign.  In particular two present values of differing sign
are a flip, but a row where either value is missing is ALSO always counted,
because `np.sign(NaN) != np.sign(NaN)` holds under IEEE comparison. -/
theorem crossover_characterization (l : List (Option ℝ)) (i : Nat) :
    isCross l i ↔ i < l.length ∧
      ¬ ∃ x y, l.getD i none = some x ∧ prevRoll l i = some y ∧
        Real.sign x = Real.sign y := by
  unfold isCross
  rw [neqNaN_sign_iff]

/-- Counterexample for claim C8 as stated: in the rolling series produced from
a two-row table with window 2, row 1 is counted as a crossover even though the
previous row's value is null. -/
theorem crossover_counts_null_rows :
    isCross (rollingCorr [some (1:ℚ), some 2] [some (1:ℚ), some 2] 2) 1 ∧
    (rollingCorr [some (1:ℚ), some 2] [some (1:ℚ), some 2] 2).getD 0 none = none := by
  have hr : rollingCorr [some (1:ℚ), some 2] [some (1:ℚ), some 2] 2 =
      [none, pearson [(1, 1), (2, 2)]] := rfl
  have hp : pearson [((1:ℚ), (1:ℚ)), (2, 2)] = some 1 := by
    have h2 := pearson_dup [1, 2] (by norm_num [varNum])
    simpa using h2
  rw [hr, hp]
  refine ⟨⟨by norm_num, ?_⟩, rfl⟩
  rintro ⟨s, _, hs2⟩
  simp [prevRoll, nsign] at hs2

end Dashboard

namespace Dashboard

lemma diff_LA : diffCol LA = [none, some 1, some 2, some 3, some 4] := by
  simp [LA, diffCol]
  norm_num

lemma corr_results_tableA (s : Side) : corr_results tableA s = some 1 := by
  have h : varNum (diffCol LA).reduceOption ≠ 0 := by
    rw [diff_LA, show ([none, some (1:ℚ), some 2, some 3, some 4].reduceOption) = [1, 2, 3, 4]
      from rfl]
    norm_num [varNum]
  cases s
  · exact corrS_self (diffCol LA) h
  · exact corrS_self (diffCol LA) h

lemma ce_sent_tableA : ce_sent tableA = some 1 := by
  have h : varNum (LA.map some).reduceOption ≠ 0 := by
    rw [reduceOption_map_some]
    norm_num [LA, varNum]
  exact corrS_self (LA.map some) h

lemma pe_sent_tableA : pe_sent tableA = some 1 := by
  have h : varNum (LA.map some).reduceOption ≠ 0 := by
    rw [reduceOption_map_some]
    norm_num [LA, varNum]
  exact corrS_self (LA.map some) h

lemma strength_tableA : strength tableA = some 1 := by
  unfold strength
  rw [corr_results_tableA Side.CE, corr_results_tableA Side.PE, ce_sent_tableA, pe_sent_tableA]
  norm_num

lemma mood_tableA : mood tableA = "Neutral" := by
  have hup : ceUp tableA = true ∧ peUp tableA = true := by
    constructor <;>
      simp [ceUp, peUp, priceChange, oiChange, lastPriceCol, openInterestCol, tableA,
        diff_LA, latestOpt, gtzQ]
  simp [mood, hup.1, hup.2]

end Dashboard

namespace Dashboard

lemma latestNonNull_rollA :
    latestNonNull (rollingCorr (diffCol LA) (diffCol LA) 2) = some 1 := by
  rw [diff_LA]
  rw [show rollingCorr [none, some (1:ℚ), some 2, some 3, some 4]
      [none, some (1:ℚ), some 2, some 3, some 4] 2 =
      [none, none, pearson [(1, 1), (2, 2)], pearson [(2, 2), (3, 3)],
        pearson [(3, 3), (4, 4)]] from rfl]
  rw [show pearson [((3:ℚ), (3:ℚ)), (4, 4)] = some 1 by
    simpa using pearson_dup [3, 4] (by norm_num [varNum])]
  rfl

lemma oi_imb_tableA : (OI_imb tableA).getLast?.getD 0 = 0 := by
  simp [OI_imb, tableA, LA]

/-- Claim C1 (amended): whenever the strength score is defined, it equals the
unweighted mean of the absolute values of the four full-series correlations
(CE and PE price-change/OI-change correlation, CE and PE raw price/OI
sentiment correlation); no rolling correlation and no OI-imbalance term
enters it. -/
theorem strength_is_mean_of_four_abs_corrs (d : ChainData) (r : ℝ)
    (h : strength d = some r) :
    ∃ a b c e, corr_results d Side.CE = some a ∧ corr_results d Side.PE = some b ∧
      ce_sent d = some c ∧ pe_sent d = some e ∧ r = (|a| + |b| + |c| + |e|) / 4 := by
  unfold strength at h
  split at h
  · rename_i a b c e ha hb hc he
    exact ⟨a, b, c, e, ha, hb, hc, he, (Option.some_inj.mp h).symm⟩
  · exact absurd h (by simp)

/-- Witness for the amended claim C1, at table A where the strength is 1. -/
theorem strength_is_mean_of_four_abs_corrs_witness :
    ∃ a b c e, corr_results tableA Side.CE = some a ∧ corr_results tableA Side.PE = some b ∧
      ce_sent tableA = some c ∧ pe_sent tableA = some e ∧
      (1:ℝ) = (|a| + |b| + |c| + |e|) / 4 :=
  strength_is_mean_of_four_abs_corrs tableA 1 strength_tableA

/-- Counterexample for claim C1 as stated: on table A (window 2) the code's
strength score is 1, while the spec formula
0.4 * r_price_OI + 0.3 * r_price_vol + 0.3 * OI_imbalance evaluates to 0.7. -/
theorem strength_claimC1_counterexample :
    strength tableA = some 1 ∧ strengthClaimC1 tableA 2 = 7 / 10 ∧ (1:ℝ) ≠ 7 / 10 := by
  refine ⟨strength_tableA, ?_, by norm_num⟩
  show 0.4 * ((latestNonNull (rollingCorr (diffCol LA) (diffCol LA) 2)).getD 0) +
      0.3 * ((latestNonNull (rollingCorr (diffCol LA) (diffCol LA) 2)).getD 0) +
      0.3 * (((OI_imb tableA).getLast?.getD 0 : ℚ) : ℝ) = 7 / 10
  rw [latestNonNull_rollA, oi_imb_tableA]
  norm_num

/-- Claim C2 (amended): the emitted signal (`mood`) is a pure function of the
latest price-change and OI-change signs: Bullish iff the CE side rose in both
and the PE side did not, Bearish in the mirrored case, Neutral otherwise; the
strength score plays no role and there is one single mode. -/
theorem mood_characterization (d : ChainData) :
    (mood d = "Bullish" ↔ (ceUp d = true ∧ peUp d = false)) ∧
    (mood d = "Bearish" ↔ (peUp d = true ∧ ceUp d = false)) ∧
    (mood d = "Neutral" ↔ ceUp d = peUp d) := by
  unfold mood
  cases hc : ceUp d <;> cases hp : peUp d <;> simp

/-- Counterexample for claim C2 as stated: table A has strength 1 > 0.2, yet
the emitted signal is "Neutral", not BUY_CE, and no regime-gated mode exists
in the program. -/
theorem signal_not_strength_thresholded :
    strength tableA = some 1 ∧ ((0.2 : ℝ) < 1) ∧ mood tableA = "Neutral" ∧
      mood tableA ≠ "BUY_CE" :=
  ⟨strength_tableA, by norm_num, mood_tableA, by rw [mood_tableA]; decide⟩

/-- Claim C10: whenever the strength score is defined it lies in [0, 1]; in
particular it is never negative, so a sell-side condition of the form
strength < -0.2 can never hold. -/
theorem strength_in_unit_interval (d : ChainData) (r : ℝ) (h : strength d = some r) :
    0 ≤ r ∧ r ≤ 1 ∧ ¬ r < -(1 / 5) := by
  unfold strength at h
  split at h
  · rename_i a b c e ha hb hc he
    have h1 : |a| ≤ 1 := pearson_abs_le_one _ a ha
    have h2 : |b| ≤ 1 := pearson_abs_le_one _ b hb
    have h3 : |c| ≤ 1 := pearson_abs_le_one _ c hc
    have h4 : |e| ≤ 1 := pearson_abs_le_one _ e he
    have hr : r = (|a| + |b| + |c| + |e|) / 4 := (Option.some_inj.mp h).symm
    have n1 := abs_nonneg a
    have n2 := abs_nonneg b
    have n3 := abs_nonneg c
    have n4 := abs_nonneg e
    refine ⟨by rw [hr]; linarith, by rw [hr]; linarith, by rw [hr]; intro hlt; linarith⟩
  · exact absurd h (by simp)

/-- Witness for claim C10 at table A, whose strength is exactly 1. -/
theorem strength_in_unit_interval_witness :
    0 ≤ (1:ℝ) ∧ (1:ℝ) ≤ 1 ∧ ¬ (1:ℝ) < -(1 / 5) :=
  strength_in_unit_interval tableA 1 strength_tableA

end Dashboard

namespace Dashboard

lemma getElem?_zipWith {α β γ : Type} (f : α → β → γ) :
    ∀ (as : List α) (bs : List β) (i : Nat) (a : α) (b : β),
      as[i]? = some a → bs[i]? = some b → (List.zipWith f as bs)[i]? = some (f a b) := by
  intro as
  induction as with
  | nil => intro bs i a b ha; simp at ha
  | cons x t ih =>
      intro bs i a b ha hb
      cases bs with
      | nil => simp at hb
      | cons y u =>
          cases i with
          | zero =>
              simp only [List.getElem?_cons_zero, Option.some_inj] at ha hb
              simp [List.zipWith_cons_cons, ha, hb]
          | succ j =>
              simp only [List.getElem?_cons_succ] at ha hb
              simpa [List.zipWith_cons_cons] using ih u j a b ha hb

/-- Claim C9: at every row the OI-imbalance column equals
(CE_openInterest - PE_openInterest) / (CE_openInterest + PE_openInterest),
and at a row with CE = 1200, PE = 800 that value is exactly 0.2 = 1/5. -/
theorem oi_imbalance_formula (d : ChainData) (i : Nat) (c p : ℚ)
    (hc : d.CE_openInterest[i]? = some c) (hp : d.PE_openInterest[i]? = some p) :
    (OI_imb d)[i]? = some ((c - p) / (c + p)) ∧
    ((1200 : ℚ) - 800) / (1200 + 800) = 1 / 5 := by
  refine ⟨?_, by norm_num⟩
  unfold OI_imb
  exact getElem?_zipWith _ _ _ i c p hc hp

/-- Witness for claim C9 at the one-row table D (CE OI 1200, PE OI 800). -/
theorem oi_imbalance_formula_witness :
    (OI_imb tableD)[0]? = some (((1200 : ℚ) - 800) / (1200 + 800)) ∧
    ((1200 : ℚ) - 800) / (1200 + 800) = 1 / 5 :=
  oi_imbalance_formula tableD 0 1200 800 rfl rfl

lemma diffCol_getElem_succ :
    ∀ (l : List ℚ) (i : Nat) (a b : ℚ), l[i]? = some a → l[i + 1]? = some b →
      (diffCol l)[i + 1]? = some (some (b - a)) := by
  intro l i a b ha hb
  cases l with
  | nil => simp at ha
  | cons x t =>
      show (none :: List.zipWith (fun a b => some (b - a)) (x :: t) t)[i + 1]? = _
      rw [List.getElem?_cons_succ]
      have htb : t[i]? = some b := by simpa using hb
      exact getElem?_zipWith _ (x :: t) t i a b ha htb

lemma pctCol_getElem_succ :
    ∀ (l : List ℚ) (i : Nat) (a b : ℚ), l[i]? = some a → l[i + 1]? = some b →
      (pctCol l)[i + 1]? = some (some ((b / a - 1) * 100)) := by
  intro l i a b ha hb
  cases l with
  | nil => simp at ha
  | cons x t =>
      show (none :: List.zipWith (fun a b => some ((b / a - 1) * 100)) (x :: t) t)[i + 1]? = _
      rw [List.getElem?_cons_succ]
      have htb : t[i]? = some b := by simpa using hb
      exact getElem?_zipWith _ (x :: t) t i a b ha htb

lemma diffCol_first (l : List ℚ) : diffCol l = [] ∨ (diffCol l)[0]? = some none := by
  cases l with
  | nil => left; rfl
  | cons x t => right; simp [diffCol]

lemma pctCol_first (l : List ℚ) : pctCol l = [] ∨ (pctCol l)[0]? = some none := by
  cases l with
  | nil => left; rfl
  | cons x t => right; simp [pctCol]

/-- Claim C4 (amended): the feature-derivation loop appends exactly FOUR
derived columns per side, named price_change, pct_return, vol_change and
oi_change (the IV first difference is computed later, in the IV-correlation
step, but never appended as a column); every derived column is empty or has a
null first row; and from row 1 on, price_change and oi_change and vol_change
hold the consecutive raw differences while pct_return holds the percent
change times 100. -/
theorem derived_columns_spec (d : ChainData) (s : Side) :
    ((derivedCols d s).map Prod.fst) =
      [sideName s ++ "_price_change", sideName s ++ "_pct_return",
       sideName s ++ "_vol_change", sideName s ++ "_oi_change"] ∧
    (derivedCols d s).length = 4 ∧
    (∀ col ∈ derivedCols d s, col.2 = [] ∨ col.2[0]? = some none) ∧
    (∀ i a b, (lastPriceCol d s)[i]? = some a → (lastPriceCol d s)[i + 1]? = some b →
      (priceChange d s)[i + 1]? = some (some (b - a)) ∧
      (pctReturn d s)[i + 1]? = some (some ((b / a - 1) * 100))) ∧
    (∀ i a b, (openInterestCol d s)[i]? = some a → (openInterestCol d s)[i + 1]? = some b →
      (oiChange d s)[i + 1]? = some (some (b - a))) ∧
    (∀ i a b, (volumeCol d s)[i]? = some a → (volumeCol d s)[i + 1]? = some b →
      (volChange d s)[i + 1]? = some (some (b - a))) := by
  refine ⟨rfl, rfl, ?_, ?_, ?_, ?_⟩
  · intro col hcol
    simp only [derivedCols, List.mem_cons, List.not_mem_nil, or_false] at hcol
    rcases hcol with h | h | h | h <;> subst h <;>
      first
        | exact diffCol_first _
        | exact pctCol_first _
  · intro i a b ha hb
    exact ⟨diffCol_getElem_succ _ i a b ha hb, pctCol_getElem_succ _ i a b ha hb⟩
  · intro i a b ha hb
    exact diffCol_getElem_succ _ i a b ha hb
  · intro i a b ha hb
    exact diffCol_getElem_succ _ i a b ha hb

/-- Witness for the amended claim C4 at table A, checking the derived values
at row 1 of the CE side. -/
theorem derived_columns_spec_witness :
    ((derivedCols tableA Side.CE).map Prod.fst) =
      ["CE_price_change", "CE_pct_return", "CE_vol_change", "CE_oi_change"] ∧
    (priceChange tableA Side.CE)[1]? = some (some ((2 : ℚ) - 1)) ∧
    (pctReturn tableA Side.CE)[1]? = some (some (((2 : ℚ) / 1 - 1) * 100)) := by
  obtain ⟨h1, _, _, h4, _, _⟩ := derived_columns_spec tableA Side.CE
  obtain ⟨hp, hq⟩ := h4 0 1 2 rfl rfl
  exact ⟨h1, hp, hq⟩

/-- Counterexample for claim C4 as stated: the loop appends four derived
columns per side, not five, and no IV-difference column is among them. -/
theorem derived_columns_counterexample :
    (derivedCols tableA Side.CE).length = 4 ∧ (4 : Nat) ≠ 5 ∧
    ((derivedCols tableA Side.CE).map Prod.fst) =
      ["CE_price_change", "CE_pct_return", "CE_vol_change", "CE_oi_change"] ∧
    (0 : Nat) = ((derivedCols tableA Side.CE).map Prod.fst).countP
      (fun n => n = "CE_iv_change") :=
  ⟨rfl, by norm_num, rfl, by rfl⟩

end Dashboard

namespace Dashboard

/-- Claim C5 (amended): the regime-style label a side receives is derived
from the FULL-SERIES (non-rolling) correlation between the side's price
change and its own OI change: "long build‑up" when that correlation is
strictly positive, "short build‑up" otherwise (zero or undefined also yield
the short label); no rolling-correlation-based regime is computed. -/
theorem buildup_note_characterization (d : ChainData) (s : Side) :
    (buildupNote d s = "long build‑up" ↔ ∃ r, corr_results d s = some r ∧ 0 < r) ∧
    (buildupNote d s = "short build‑up" ↔ ¬ ∃ r, corr_results d s = some r ∧ 0 < r) := by
  unfold buildupNote
  by_cases h : optPosR (corr_results d s)
  · rw [if_pos h]
    exact ⟨iff_of_true rfl h, iff_of_false (by decide) (not_not_intro h)⟩
  · rw [if_neg h]
    exact ⟨iff_of_false (by decide) h, iff_of_true rfl h⟩

lemma diff_LCp : diffCol LCp = [none, some 1, some 6, some 1] := by
  simp [LCp, diffCol]
  norm_num

lemma diff_LCo : diffCol LCo = [none, some 1, some 6, some (-1)] := by
  simp [LCo, diffCol]
  norm_num

lemma corr_results_tableC_pos :
    ∃ r, corr_results tableC Side.CE = some r ∧ 0 < r := by
  have hshape : corr_results tableC Side.CE =
      pearson [(1, 1), (6, 6), ((1 : ℚ), (-1 : ℚ))] := by
    show corrS (diffCol LCp) (diffCol LCo) = _
    rw [corrS, diff_LCp, diff_LCo]
    rfl
  obtain ⟨r, hr, hpos⟩ := pearson_pos [(1, 1), (6, 6), ((1 : ℚ), (-1 : ℚ))]
    (by norm_num [varNum]) (by norm_num [varNum]) (by norm_num [covNum])
  exact ⟨r, by rw [hshape, hr], hpos⟩

lemma latest_rolling_tableC_neg :
    ∃ r, latestNonNull (rollingCorr (tableC.CE_lastPrice.map some)
      (tableC.CE_openInterest.map some) 2) = some r ∧ r < 0 := by
  have hshape : rollingCorr (tableC.CE_lastPrice.map some)
      (tableC.CE_openInterest.map some) 2 =
      [none, pearson [(1, 1), (2, 2)], pearson [(2, 2), (8, 8)],
        pearson [((8 : ℚ), (8 : ℚ)), (9, 7)]] := rfl
  obtain ⟨r, hr, hneg⟩ := pearson_neg [((8 : ℚ), (8 : ℚ)), (9, 7)]
    (by norm_num [varNum]) (by norm_num [varNum]) (by norm_num [covNum])
  refine ⟨r, ?_, hneg⟩
  rw [hshape, hr]
  rfl

/-- Counterexample for claim C5 as stated: on table C with window 2, the most
recent non-null rolling price/OI correlation of the CE side is negative, so
the claimed rule labels the regime "Bearish", yet the code's
correlation-derived label for the CE side is the bullish one,
"long build‑up", because the code uses the full-series correlation of the
change columns instead. -/
theorem regime_claimC5_counterexample :
    regimeClaimC5 tableC 2 = "Bearish" ∧ buildupNote tableC Side.CE = "long build‑up" := by
  constructor
  · unfold regimeClaimC5
    obtain ⟨r, hr, hneg⟩ := latest_rolling_tableC_neg
    rw [if_neg]
    rintro ⟨u, hu, hupos⟩
    rw [hr] at hu
    obtain rfl : u = r := (Option.some_inj.mp hu).symm
    linarith
  · unfold buildupNote
    have h : optPosR (corr_results tableC Side.CE) := corr_results_tableC_pos
    rw [if_pos h]

end Dashboard

namespace Dashboard

lemma pairwise_filterMap_of {α β : Type} (f : α → Option β) {R : α → α → Prop}
    {S : β → β → Prop}
    (hf : ∀ a b x y, R a b → f a = some x → f b = some y → S x y) :
    ∀ l : List α, l.Pairwise R → (l.filterMap f).Pairwise S := by
  intro l hl
  induction hl with
  | nil => simp
  | cons hhead _ ih =>
      rename_i a l' _
      cases hfa : f a with
      | none => simpa [List.filterMap_cons, hfa] using ih
      | some x =>
          rw [List.filterMap_cons, hfa]
          refine List.Pairwise.cons ?_ ih
          intro y hy
          obtain ⟨b, hbmem, hfb⟩ := List.mem_filterMap.mp hy
          exact hf a b x y (hhead b hbmem) hfa hfb

lemma mem_lagValid (d : ChainData) (s : Side) (k : Nat) (v : ℝ) :
    (k, v) ∈ lagValid d s ↔ 1 ≤ k ∧ k ≤ maxlag ∧ lagCorr d s k = some v := by
  unfold lagValid lagRows maxlag
  simp only [List.mem_filterMap, List.mem_map, List.mem_range]
  constructor
  · rintro ⟨p, ⟨j, hj, rfl⟩, hpv⟩
    obtain ⟨w, hw, heq⟩ := Option.map_eq_some'.mp hpv
    have hjk : j + 1 = k ∧ w = v := by
      have h1 := congrArg Prod.fst heq
      have h2 := congrArg Prod.snd heq
      exact ⟨h1, h2⟩
    obtain ⟨rfl, rfl⟩ := hjk
    exact ⟨by omega, by omega, hw⟩
  · rintro ⟨h1, h2, h3⟩
    refine ⟨(k, lagCorr d s k), ⟨k - 1, by omega, ?_⟩, ?_⟩
    · rw [show k - 1 + 1 = k from by omega]
    · rw [h3]
      rfl

lemma lagValid_pairwise (d : ChainData) (s : Side) :
    (lagValid d s).Pairwise fun a b => a.1 < b.1 := by
  unfold lagValid
  apply pairwise_filterMap_of (f := fun p : Nat × Option ℝ => p.2.map fun v => (p.1, v))
    (R := fun a b : Nat × Option ℝ => a.1 < b.1)
  · intro a b x y hab hfa hfb
    obtain ⟨wa, _, rfl⟩ := Option.map_eq_some'.mp hfa
    obtain ⟨wb, _, rfl⟩ := Option.map_eq_some'.mp hfb
    exact hab
  · unfold lagRows
    apply List.Pairwise.map _ (fun a b h => by simpa using h)
    exact List.pairwise_lt_range maxlag

lemma fst_le_of_indexOf_le {α : Type} [DecidableEq α] (f : α → Nat)
    {l : List α} (hp : l.Pairwise fun a b => f a < f b)
    {a b : α} (ha : a ∈ l) (hb : b ∈ l) (hi : l.indexOf a ≤ l.indexOf b) :
    f a ≤ f b := by
  have hia : l.indexOf a < l.length := List.indexOf_lt_length.mpr ha
  have hib : l.indexOf b < l.length := List.indexOf_lt_length.mpr hb
  rcases lt_or_eq_of_le hi with hlt | heq
  · have hR := (List.pairwise_iff_get.mp hp) ⟨l.indexOf a, hia⟩ ⟨l.indexOf b, hib⟩
      (by simpa using hlt)
    rw [List.get_eq_getElem, List.get_eq_getElem, List.getElem_indexOf hia,
      List.getElem_indexOf hib] at hR
    exact hR.le
  · have hab : a = b := by
      have h1 := List.getElem_indexOf hia
      have h2 := List.getElem_indexOf hib
      rw [← h1, ← h2]
      congr 1
    rw [hab]

/-- Claim C3 (amended): the lag test computes one pairwise-complete
correlation per lag over the inclusive range 1..5 (in snapshot steps), the
correlation at lag L being between the price-change series and the raw
open-interest series shifted by L; the reported best lag maximizes the
correlation over the lags whose correlation is defined, with ties broken by
the smallest such lag. -/
theorem best_lag_spec (d : ChainData) (s : Side) (k : Nat)
    (h : bestLag d s = some k) :
    ((lagRows d s).map Prod.fst = [1, 2, 3, 4, 5]) ∧
    (∀ j, j < maxlag → (lagRows d s)[j]? = some (j + 1, lagCorr d s (j + 1))) ∧
    1 ≤ k ∧ k ≤ maxlag ∧
    (∃ v, lagCorr d s k = some v ∧
      (∀ lag u, 1 ≤ lag → lag ≤ maxlag → lagCorr d s lag = some u → u ≤ v) ∧
      (∀ lag u, 1 ≤ lag → lag ≤ maxlag → lagCorr d s lag = some u → u = v → k ≤ lag)) := by
  classical
  obtain ⟨m, hm, hmk⟩ : ∃ m, (lagValid d s).argmax Prod.snd = some m ∧ m.1 = k := by
    unfold bestLag at h
    obtain ⟨m, hm1, hm2⟩ := Option.map_eq_some'.mp h
    exact ⟨m, hm1, hm2⟩
  subst hmk
  have hmem : m ∈ lagValid d s := List.argmax_mem (by exact hm)
  obtain ⟨hk1, hk5, hkcorr⟩ := (mem_lagValid d s m.1 m.2).mp (by simpa using hmem)
  have hpair := lagValid_pairwise d s
  refine ⟨rfl, ?_, hk1, hk5, m.2, hkcorr, ?_, ?_⟩
  · intro j hj
    unfold lagRows
    rw [List.getElem?_map, List.getElem?_range hj]
    rfl
  · intro lag u h1 h5 hc
    have humem : (lag, u) ∈ lagValid d s := (mem_lagValid d s lag u).mpr ⟨h1, h5, hc⟩
    exact List.le_of_mem_argmax humem (by exact hm)
  · intro lag u h1 h5 hc hv
    have humem : (lag, u) ∈ lagValid d s := (mem_lagValid d s lag u).mpr ⟨h1, h5, hc⟩
    have hidx := List.index_of_argmax (by exact hm) humem (by simpa using hv.ge)
    exact fst_le_of_indexOf_le Prod.fst hpair hmem humem hidx

end Dashboard

namespace Dashboard

lemma diff_LB : diffCol [1, 2, 4] = [none, some 1, some 2] := by
  simp [diffCol]
  norm_num

lemma lagCorr_tableB_one : lagCorr tableB Side.CE 1 = some 1 := by
  have hshape : lagCorr tableB Side.CE 1 = pearson [((1 : ℚ), (5 : ℚ)), (2, 6)] := by
    show corrS (diffCol [1, 2, 4]) (shiftCol 1 ([(5 : ℚ), 6, 8].map some)) = _
    rw [corrS, diff_LB]
    rfl
  rw [hshape]
  unfold pearson
  rw [if_neg (by push_neg; constructor <;> norm_num [varNum])]
  rw [show varNum ([((1 : ℚ), (5 : ℚ)), (2, 6)].map Prod.fst) = 1 by norm_num [varNum],
    show varNum ([((1 : ℚ), (5 : ℚ)), (2, 6)].map Prod.snd) = 1 by norm_num [varNum],
    show covNum [((1 : ℚ), (5 : ℚ)), (2, 6)] = 1 by norm_num [covNum]]
  norm_num

lemma lagCorr_tableB_two : lagCorr tableB Side.CE 2 = none := by
  have hshape : lagCorr tableB Side.CE 2 = pearson [((2 : ℚ), (5 : ℚ))] := by
    show corrS (diffCol [1, 2, 4]) (shiftCol 2 ([(5 : ℚ), 6, 8].map some)) = _
    rw [corrS, diff_LB]
    rfl
  rw [hshape, pearson_eq_none_iff]
  left
  norm_num [varNum]

lemma lagCorr_tableB_big (j : Nat) (hj : 3 ≤ j) : lagCorr tableB Side.CE j = none := by
  have hshape : lagCorr tableB Side.CE j = pearson (validPairs [none, some 1, some 2]
      (List.replicate j none ++ [])) := by
    show corrS (diffCol [1, 2, 4]) (shiftCol j ([(5 : ℚ), 6, 8].map some)) = _
    rw [corrS, diff_LB]
    congr 1
    unfold shiftCol
    congr 1
    rw [show ([(5 : ℚ), 6, 8].map some).length - j = 0 from by simp; omega]
    rfl
  rw [hshape]
  have hv : validPairs [none, some (1:ℚ), some 2] (List.replicate j none ++ []) = [] := by
    rcases j with _ | _ | _ | m
    · omega
    · omega
    · omega
    · show validPairs [none, some (1:ℚ), some 2] (none :: none :: none :: List.replicate m none ++ []) = []
      cases m <;> rfl
  rw [hv, pearson_eq_none_iff]
  left
  norm_num [varNum]

end Dashboard

namespace Dashboard

lemma lagValid_tableB : lagValid tableB Side.CE = [(1, (1 : ℝ))] := by
  unfold lagValid lagRows maxlag
  rw [show List.range 5 = [0, 1, 2, 3, 4] from rfl]
  simp only [List.map_cons, List.map_nil, Nat.reduceAdd]
  rw [lagCorr_tableB_one, lagCorr_tableB_two, lagCorr_tableB_big 3 (by omega),
    lagCorr_tableB_big 4 (by omega), lagCorr_tableB_big 5 (by omega)]
  rfl

lemma bestLag_tableB : bestLag tableB Side.CE = some 1 := by
  unfold bestLag
  rw [lagValid_tableB]
  simp

/-- Witness for the amended claim C3 at table B, where only lag 1 has a
defined correlation and the best lag is 1. -/
theorem best_lag_spec_witness :
    ((lagRows tableB Side.CE).map Prod.fst = [1, 2, 3, 4, 5]) ∧
    (∃ v, lagCorr tableB Side.CE 1 = some v ∧
      ∀ lag u, 1 ≤ lag → lag ≤ maxlag → lagCorr tableB Side.CE lag = some u → u ≤ v) := by
  obtain ⟨h1, _, _, _, v, hv, hmax, _⟩ := best_lag_spec tableB Side.CE 1 bestLag_tableB
  exact ⟨h1, v, hv, hmax⟩

/-- Counterexample for claim C3 as stated: the computed lag set is exactly
[1, 2, 3, 4, 5] - five strictly positive lags - not the seven lags of the
claimed inclusive range -3..+3; in particular no lag-0 or negative-lag
correlation is computed at all. -/
theorem lag_range_counterexample :
    (lagRows tableB Side.CE).map Prod.fst = [1, 2, 3, 4, 5] ∧
    ((lagRows tableB Side.CE).map Prod.fst).length = 5 ∧ (5 : Nat) ≠ 7 ∧
    (0 : Nat) ∉ (lagRows tableB Side.CE).map Prod.fst := by
  refine ⟨rfl, rfl, by norm_num, ?_⟩
  rw [show (lagRows tableB Side.CE).map Prod.fst = [1, 2, 3, 4, 5] from rfl]
  decide

end Dashboard

namespace Dashboard

/-- Instance of the amended claim C2 at table A. -/
theorem mood_characterization_witness :
    (mood tableA = "Bullish" ↔ (ceUp tableA = true ∧ peUp tableA = false)) ∧
    (mood tableA = "Bearish" ↔ (peUp tableA = true ∧ ceUp tableA = false)) ∧
    (mood tableA = "Neutral" ↔ ceUp tableA = peUp tableA) :=
  mood_characterization tableA

/-- Instance of the amended claim C5 at table C. -/
theorem buildup_note_characterization_witness :
    (buildupNote tableC Side.CE = "long build‑up" ↔
      ∃ r, corr_results tableC Side.CE = some r ∧ 0 < r) ∧
    (buildupNote tableC Side.CE = "short build‑up" ↔
      ¬ ∃ r, corr_results tableC Side.CE = some r ∧ 0 < r) :=
  buildup_note_characterization tableC Side.CE

/-- Instance of the amended claim C8 on a two-entry series. -/
theorem crossover_characterization_witness :
    isCross [some (1 : ℝ), some (-1 : ℝ)] 1 ↔ 1 < ([some (1 : ℝ), some (-1 : ℝ)]).length ∧
      ¬ ∃ x y, ([some (1 : ℝ), some (-1 : ℝ)]).getD 1 none = some x ∧
        prevRoll [some (1 : ℝ), some (-1 : ℝ)] 1 = some y ∧
        Real.sign x = Real.sign y :=
  crossover_characterization [some (1 : ℝ), some (-1 : ℝ)] 1

end Dashboard
